import Mathlib

/-!
# Font atlas: glyph table, default scale and text mesh generation

A shallow embedding of `src/font_atlas/font_atlas.hpp` and `src/font_atlas/font_atlas.cpp`.

* The C++ type `float` is a type parameter `α` carrying the operations the code uses
  (`+`, `-`, `*`, `/` and the conversion of an integer to `float`, written as a cast from `ℕ`).
  Statements about the shape of the buffers, and about which operations produce which
  entry, hold for every such `α`.  Statements about the numbers produced are made at
  `FloatV`, IEEE 754 binary32 with round-to-nearest-even, subnormals, signed zeros,
  overflow to the infinities and `NaN`; every C++ operation rounds once (no fused
  multiply-add, no excess precision).
* `std::unordered_map<char, Character>` is an association list with distinct keys; the code
  never iterates over it.
* `char` is `Char`, `std::string` is `String` read through `String.toList`.
* `unsigned int` indices are natural numbers.
* The parsed `j["characters"]` object is the list of its items in iteration order; its keys
  are pairwise distinct strings and every item carries the five numeric fields the
  constructor reads.
* The texture atlas is known to the constructor through one query only,
  `get_texture_coordinates_of_sub_texture`, which is a parameter of the embedding.
-/

/-! ## The number type of the program: IEEE 754 binary32 -/

/-- A `float` (binary32).  A finite value is a sign and a magnitude `k` counted in units of
2^-149, the spacing of the subnormals, so every finite binary32 value has exactly one
representation `fin neg k` (the two zeros are `fin false 0` and `fin true 0`).  The values
the hardware knows are those with `k` representable (`FloatV.Valid`); every operation
rounds to such a value.  NaNs are not told apart. -/
inductive FloatV where
  | fin (neg : Bool) (k : ℕ)
  | inf (neg : Bool)
  | nan
deriving DecidableEq

namespace FloatV

/-- Magnitude of the largest finite value, (2^24 - 1) * 2^104, in units of 2^-149. -/
def maxK : ℕ := (2 ^ 24 - 1) * 2 ^ 253

/-- Floor of the binary logarithm, by halving at most `fuel` times. -/
def log2Fuel : ℕ → ℕ → ℕ
  | 0, _ => 0
  | fuel + 1, n => if 2 ≤ n then log2Fuel fuel (n / 2) + 1 else 0

/-- Floor of the binary logarithm of `n` (0 for `n = 0`). -/
def ilog2 (n : ℕ) : ℕ := log2Fuel n n

/-- Round the non-negative rational `p / q`, given in units of 2^-149, to the nearest
magnitude with a 24-bit significand, ties to the even significand.  Below 2^24 units the
spacing is one unit (subnormals and the first binade); above, the spacing doubles with each
binade.  The exponent is not bounded here. -/
def roundNE (p q : ℕ) : ℕ :=
  let s := ilog2 (p / q) - 23
  let d := q * 2 ^ s
  let lo := p / d
  let r := p % d
  if 2 * r < d then lo * 2 ^ s
  else if d < 2 * r then (lo + 1) * 2 ^ s
  else if lo % 2 = 0 then lo * 2 ^ s
  else (lo + 1) * 2 ^ s

/-- The float nearest to `± p / q`: the rounded magnitude, or an infinity when it exceeds
the largest finite value. -/
def ofRound (neg : Bool) (p q : ℕ) : FloatV :=
  if roundNE p q ≤ maxK then fin neg (roundNE p q) else inf neg

/-- Negation flips the sign bit. -/
def neg : FloatV → FloatV
  | fin s k => fin (!s) k
  | inf s => inf (!s)
  | nan => nan

/-- Addition.  The exact sum of two finite values is a whole number of units; an exact zero
sum of opposite signs is `+0`; `inf + (-inf)` is `NaN`. -/
def add : FloatV → FloatV → FloatV
  | fin s1 k1, fin s2 k2 =>
    if s1 = s2 then ofRound s1 (k1 + k2) 1
    else if k1 = k2 then fin false 0
    else if k2 < k1 then ofRound s1 (k1 - k2) 1
    else ofRound s2 (k2 - k1) 1
  | inf s1, inf s2 => if s1 = s2 then inf s1 else nan
  | inf s, fin _ _ => inf s
  | fin _ _, inf s => inf s
  | _, _ => nan

/-- Multiplication: the exact product is `k1 * k2 / 2^149` units; `0 * inf` is `NaN`. -/
def mul : FloatV → FloatV → FloatV
  | fin s1 k1, fin s2 k2 => ofRound (xor s1 s2) (k1 * k2) (2 ^ 149)
  | inf s1, inf s2 => inf (xor s1 s2)
  | inf s1, fin s2 k => if k = 0 then nan else inf (xor s1 s2)
  | fin s1 k, inf s2 => if k = 0 then nan else inf (xor s1 s2)
  | _, _ => nan

/-- Division: the exact quotient is `k1 * 2^149 / k2` units; `0 / 0` and `inf / inf` are
`NaN`, a non-zero value over zero is an infinity, a finite value over an infinity is zero. -/
def div : FloatV → FloatV → FloatV
  | fin s1 k1, fin s2 k2 =>
    if k2 = 0 then (if k1 = 0 then nan else inf (xor s1 s2))
    else ofRound (xor s1 s2) (k1 * 2 ^ 149) k2
  | inf s1, fin s2 _ => inf (xor s1 s2)
  | fin s1 _, inf s2 => fin (xor s1 s2) 0
  | _, _ => nan

instance : Add FloatV := ⟨add⟩
instance : Sub FloatV := ⟨fun a b => add a (neg b)⟩
instance : Mul FloatV := ⟨mul⟩
instance : Div FloatV := ⟨div⟩

/-- Conversion of an unsigned integer to `float`: the nearest float. -/
instance : NatCast FloatV := ⟨fun n => ofRound false (n * 2 ^ 149) 1⟩

/-- The magnitude has a significand of at most 24 bits. -/
def representable (k : ℕ) : Prop := k % 2 ^ (ilog2 k - 23) = 0

instance (k : ℕ) : Decidable (representable k) := by
  unfold representable
  infer_instance

/-- The value is one the hardware knows: a finite value is representable and not above the
largest finite value. -/
def Valid : FloatV → Prop
  | fin _ k => representable k ∧ k ≤ maxK
  | _ => True

/-- The signed magnitude of a finite value, in units of 2^-149. -/
def toInt : Bool → ℕ → ℤ
  | false, k => (k : ℤ)
  | true, k => -(k : ℤ)

/-- The real number a finite value stands for (0 for the non-finite values). -/
def toRat : FloatV → ℚ
  | fin s k => (toInt s k : ℚ) / 2 ^ 149
  | _ => 0

/-- Comparison `a <= b`: false when either side is `NaN`; the two zeros are equal. -/
def le : FloatV → FloatV → Bool
  | fin s1 k1, fin s2 k2 => decide (toInt s1 k1 ≤ toInt s2 k2)
  | inf true, fin _ _ => true
  | inf true, inf _ => true
  | fin _ _, inf false => true
  | inf false, inf false => true
  | _, _ => false

/-- Comparison `a < b`: false when either side is `NaN`. -/
def lt : FloatV → FloatV → Bool
  | fin s1 k1, fin s2 k2 => decide (toInt s1 k1 < toInt s2 k2)
  | inf true, fin _ _ => true
  | inf true, inf false => true
  | fin _ _, inf false => true
  | _, _ => false

/-- The value is neither an infinity nor `NaN`. -/
def isFinite : FloatV → Bool
  | fin _ _ => true
  | _ => false

/-- Comparison `0 < v`. -/
def isPositive (v : FloatV) : Bool := lt (fin false 0) v

/-- Comparison `0 <= v`. -/
def isNonneg (v : FloatV) : Bool := le (fin false 0) v

end FloatV

/-! ## Data model (`font_atlas.hpp`) -/

/-- Two floats: `glm::vec2`. -/
structure Vec2 (α : Type) where
  x : α
  y : α
deriving DecidableEq

/-- Three floats: `glm::vec3`. -/
structure Vec3 (α : Type) where
  x : α
  y : α
  z : α
deriving DecidableEq

/-- Glyph record: `struct Character`. -/
structure Character (α : Type) where
  width_px : α
  height_px : α
  origin_x : α
  origin_y : α
  x_dist_to_next_char_px : α
  uv_coordinates : List (Vec2 α)
deriving DecidableEq

/-- Output buffers: `struct TextMesh`. -/
structure TextMesh (α : Type) where
  indices : List ℕ
  vertex_positions : List (Vec3 α)
  texture_coordinates : List (Vec2 α)
deriving DecidableEq

/-- A `std::unordered_map<char, β>` as an association list. -/
abbrev UnorderedMap (β : Type) := List (Char × β)

namespace UnorderedMap

/-- Lookup `m.find(k)`: `none` stands for `m.end()`. -/
def find {β : Type} : UnorderedMap β → Char → Option β
  | [], _ => none
  | (k, v) :: rest, c => if k = c then some v else find rest c

/-- The map after evaluating `m[k]`: a value-initialised entry is inserted when `k` is not
a key. -/
def subscript {β : Type} (m : UnorderedMap β) (k : Char) (dflt : β) : UnorderedMap β :=
  match find m k with
  | some _ => m
  | none => m ++ [(k, dflt)]

/-- The value `m[k]` refers to. -/
def get {β : Type} (m : UnorderedMap β) (k : Char) (dflt : β) : β :=
  match find m k with
  | some v => v
  | none => dflt

/-- The map after `m[k] = v`: the value under `k` is replaced, or `(k, v)` is inserted when
`k` is not a key. -/
def assign {β : Type} : UnorderedMap β → Char → β → UnorderedMap β
  | [], c, v => [(c, v)]
  | (k, w) :: rest, c, v => if k = c then (k, v) :: rest else (k, w) :: assign rest c v

end UnorderedMap

/-- A value-initialised `Character`: what `operator[]` inserts for a missing key. -/
def Character.zero {α : Type} [NatCast α] : Character α :=
  { width_px := ((0 : ℕ) : α), height_px := ((0 : ℕ) : α), origin_x := ((0 : ℕ) : α),
    origin_y := ((0 : ℕ) : α), x_dist_to_next_char_px := ((0 : ℕ) : α), uv_coordinates := [] }

/-- The members of `class FontAtlas` the code reads or writes.  (`name`, `size`, `bold`,
`italic`, `atlas_width`, `atlas_height` are never touched; `texture_atlas` is queried by
the constructor only.) -/
structure FontAtlas (α : Type) where
  num_chars_per_screen_width : ℕ
  default_scale : α
  characters : UnorderedMap (Character α)

/-! ## Geometry helpers declared outside the sources at hand -/

/-- Modelled from the spec: `generate_rectangle_vertices` comes in through
`sbpt_generated_includes.hpp` and its body is not among the sources.  Spec 4.3 step 4: four
vertices forming a rectangle centred at the given point with the given width and height, at
a fixed z of 0, in the winding order lower-left, lower-right, upper-right, upper-left. -/
def generate_rectangle_vertices {α : Type} [Add α] [Sub α] [Div α] [NatCast α]
    (center_x center_y width height : α) : List (Vec3 α) :=
  let half_width := width / ((2 : ℕ) : α)
  let half_height := height / ((2 : ℕ) : α)
  [ ⟨center_x - half_width, center_y - half_height, ((0 : ℕ) : α)⟩,
    ⟨center_x + half_width, center_y - half_height, ((0 : ℕ) : α)⟩,
    ⟨center_x + half_width, center_y + half_height, ((0 : ℕ) : α)⟩,
    ⟨center_x - half_width, center_y + half_height, ((0 : ℕ) : α)⟩ ]

/-- Modelled from the spec: `generate_rectangle_indices` is not among the sources.  Spec 4.3
step 6: six indices forming two triangles covering the quad, `0,1,2, 2,3,0`. -/
def generate_rectangle_indices : List ℕ := [0, 1, 2, 2, 3, 0]

/-- Running form of the flattening: `offset` is the number of vertices of the batches
already taken. -/
def flatten_and_increment_indices.go (offset : ℕ) : List (List ℕ) → List ℕ
  | [] => []
  | batch :: rest => batch.map (fun i => i + offset) ++ go (offset + 4) rest

/-- Modelled from the spec: `flatten_and_increment_indices` is not among the sources.  Spec
4.3 step 6 and section 9: the per-glyph index lists are concatenated, each one shifted by
the cumulative vertex count of the glyphs before it (4 vertices per glyph). -/
def flatten_and_increment_indices (index_batches : List (List ℕ)) : List ℕ :=
  flatten_and_increment_indices.go 0 index_batches

/-! ## Mesh generation (`FontAtlas::generate_text_mesh`) -/

/-- What the loop of `generate_text_mesh` reads and writes: the object's map (reached
through the non-const `operator[]`), the pen `x`, the two vertex buffers and the index
batches. -/
structure MeshLoop (α : Type) where
  characters : UnorderedMap (Character α)
  x : α
  vertex_positions : List (Vec3 α)
  texture_coordinates : List (Vec2 α)
  index_batches : List (List ℕ)

/-- One iteration of `for (const char &c : text)`. -/
def FontAtlas.generate_text_mesh.body {α : Type} [Add α] [Sub α] [Mul α] [Div α] [NatCast α]
    (y scale : α) (st : MeshLoop α) (c : Char) : MeshLoop α :=
  if (UnorderedMap.find st.characters c).isNone then
    st
  else
    let ch := UnorderedMap.get st.characters c Character.zero
    let characters := UnorderedMap.subscript st.characters c Character.zero
    let xpos := st.x - ch.origin_x * scale
    let ypos := y - (ch.height_px - ch.origin_y) * scale
    let w := ch.width_px * scale
    let h := ch.height_px * scale
    let char_vertices :=
      generate_rectangle_vertices (xpos + w / ((2 : ℕ) : α)) (ypos + h / ((2 : ℕ) : α)) w h
    let char_indices := generate_rectangle_indices
    { characters := characters
      x := st.x + ch.x_dist_to_next_char_px * scale
      vertex_positions := st.vertex_positions ++ char_vertices
      texture_coordinates := st.texture_coordinates ++ ch.uv_coordinates
      index_batches := st.index_batches ++ [char_indices] }

/-- The method `generate_text_mesh`, which is not `const`: it returns the mesh together with
the object as the call leaves it. -/
def FontAtlas.generate_text_mesh {α : Type} [Add α] [Sub α] [Mul α] [Div α] [NatCast α]
    (self : FontAtlas α) (text : String) (x y scale : α) : TextMesh α × FontAtlas α :=
  let scale := self.default_scale * scale
  let st := text.toList.foldl (FontAtlas.generate_text_mesh.body y scale)
    { characters := self.characters, x := x, vertex_positions := [],
      texture_coordinates := [], index_batches := [] }
  ({ indices := flatten_and_increment_indices st.index_batches
     vertex_positions := st.vertex_positions
     texture_coordinates := st.texture_coordinates },
   { self with characters := st.characters })

/-! ## Construction (`FontAtlas::FontAtlas`) -/

/-- One item of `j["characters"]`: the five numbers the constructor reads. -/
structure CharData (α : Type) where
  width : α
  height : α
  originX : α
  originY : α
  advance : α

/-- The byte `charKey[0]`; for an empty key `operator[]` yields the terminating `'\0'`. -/
def charKey0 (charKey : String) : Char :=
  charKey.toList.headD (Char.ofNat 0)

/-- One iteration of `for (auto &[charKey, charData] : json_characters.items())`, on the
pair of the running sum `average_char_width_px` and the map `characters`. -/
def FontAtlas.ctor.body {α : Type} [Add α]
    (get_texture_coordinates_of_sub_texture : String → List (Vec2 α))
    (st : α × UnorderedMap (Character α)) (item : String × CharData α) :
    α × UnorderedMap (Character α) :=
  let charKey := item.1
  let charData := item.2
  let sprite_name := String.singleton (charKey0 charKey)
  let character : Character α :=
    { width_px := charData.width
      height_px := charData.height
      origin_x := charData.originX
      origin_y := charData.originY
      x_dist_to_next_char_px := charData.advance
      uv_coordinates := get_texture_coordinates_of_sub_texture sprite_name }
  (st.1 + character.width_px, UnorderedMap.assign st.2 (charKey0 charKey) character)

/-- The constructor `FontAtlas::FontAtlas` (a Lean name cannot repeat the structure name
inside its own body).  `uninitialised` is the indeterminate content of the member
`default_scale` before the body runs; `file` is `none` when `file.is_open()` is false and
otherwise holds the items of `j["characters"]`.  The body has no `throw`: on both paths the
caller receives the constructed object. -/
def FontAtlas.ctor {α : Type} [Add α] [Mul α] [Div α] [NatCast α]
    (uninitialised : α) (file : Option (List (String × CharData α)))
    (get_texture_coordinates_of_sub_texture : String → List (Vec2 α)) : FontAtlas α :=
  let self : FontAtlas α :=
    { num_chars_per_screen_width := 50, default_scale := uninitialised, characters := [] }
  match file with
  | none => self
  | some json_characters =>
    let st := json_characters.foldl
      (FontAtlas.ctor.body get_texture_coordinates_of_sub_texture)
      (((0 : ℕ) : α), self.characters)
    let average_char_width_px := st.1 / ((json_characters.length : ℕ) : α)
    { self with
      characters := st.2
      default_scale :=
        (((2 : ℕ) : α) / average_char_width_px) * ((1 : ℕ) : α)
          / ((self.num_chars_per_screen_width : ℕ) : α) }

/-! ## Vocabulary of the statements -/

/-- The glyph records of the characters of `text` that are keys of the table, in text
order: the resolved glyphs. -/
def resolved_glyphs {α : Type} (characters : UnorderedMap (Character α)) (text : String) :
    List (Character α) :=
  text.toList.filterMap (UnorderedMap.find characters)

/-- The text with every character that is not a key of the table removed. -/
def known_characters {α : Type} (characters : UnorderedMap (Character α)) (text : String) :
    String :=
  String.mk (text.toList.filter (fun c => (UnorderedMap.find characters c).isSome))

/-- The four vertices the loop body emits for glyph `ch` with the pen at `pen`. -/
def glyph_quad {α : Type} [Add α] [Sub α] [Mul α] [Div α] [NatCast α]
    (y scale pen : α) (ch : Character α) : List (Vec3 α) :=
  generate_rectangle_vertices
    (pen - ch.origin_x * scale + ch.width_px * scale / ((2 : ℕ) : α))
    (y - (ch.height_px - ch.origin_y) * scale + ch.height_px * scale / ((2 : ℕ) : α))
    (ch.width_px * scale) (ch.height_px * scale)

/-- The pen after the given glyphs, starting from `pen`. -/
def pen_after {α : Type} [Add α] [Mul α] (scale : α) : α → List (Character α) → α
  | pen, [] => pen
  | pen, ch :: rest => pen_after scale (pen + ch.x_dist_to_next_char_px * scale) rest

/-- The vertices of the given glyphs laid out from `pen`. -/
def layout_vertices {α : Type} [Add α] [Sub α] [Mul α] [Div α] [NatCast α]
    (y scale : α) : α → List (Character α) → List (Vec3 α)
  | _, [] => []
  | pen, ch :: rest =>
    glyph_quad y scale pen ch
      ++ layout_vertices y scale (pen + ch.x_dist_to_next_char_px * scale) rest

/-- The six indices of the quad number `k`. -/
def quad_indices (k : ℕ) : List ℕ :=
  [4 * k, 4 * k + 1, 4 * k + 2, 4 * k + 2, 4 * k + 3, 4 * k]

/-- Lower-left, lower-right, upper-right, upper-left corners at z = 0 of the axis-aligned
rectangle with lower-left corner `(x, y)`, width `w` and height `h`. -/
def rectangle_from_lower_left {α : Type} [Add α] [NatCast α] (x y w h : α) : List (Vec3 α) :=
  [ ⟨x, y, ((0 : ℕ) : α)⟩, ⟨x + w, y, ((0 : ℕ) : α)⟩, ⟨x + w, y + h, ((0 : ℕ) : α)⟩,
    ⟨x, y + h, ((0 : ℕ) : α)⟩ ]

/-! ## Concrete inputs -/

/-- Four corner coordinates of a unit UV square. -/
def unit_uv : List (Vec2 ℚ) := [⟨0, 0⟩, ⟨1, 0⟩, ⟨1, 1⟩, ⟨0, 1⟩]

/-- The glyph of the spec's scenario: width 10, height 20, origins 0, advance 12. -/
def glyph_A : Character ℚ :=
  { width_px := 10, height_px := 20, origin_x := 0, origin_y := 0,
    x_dist_to_next_char_px := 12, uv_coordinates := unit_uv }

/-- An atlas over the rationals whose table holds `A` only, with `default_scale` 0.004; it
serves the statements that hold at every number type. -/
def atlas_A : FontAtlas ℚ :=
  { num_chars_per_screen_width := 50, default_scale := 1 / 250, characters := [('A', glyph_A)] }

/-- Four corner coordinates of a unit UV square, as floats. -/
def unit_uv_float : List (Vec2 FloatV) :=
  [ ⟨((0 : ℕ) : FloatV), ((0 : ℕ) : FloatV)⟩, ⟨((1 : ℕ) : FloatV), ((0 : ℕ) : FloatV)⟩,
    ⟨((1 : ℕ) : FloatV), ((1 : ℕ) : FloatV)⟩, ⟨((0 : ℕ) : FloatV), ((1 : ℕ) : FloatV)⟩ ]

/-- A float glyph of width 1, height 1, advance 1 and origins 0. -/
def glyph_unit : Character FloatV :=
  { width_px := ((1 : ℕ) : FloatV), height_px := ((1 : ℕ) : FloatV),
    origin_x := ((0 : ℕ) : FloatV), origin_y := ((0 : ℕ) : FloatV),
    x_dist_to_next_char_px := ((1 : ℕ) : FloatV), uv_coordinates := unit_uv_float }

/-- A float glyph of width 1, height 1, advance 1 whose `origin_x` is 5. -/
def glyph_unit_origin_5 : Character FloatV :=
  { width_px := ((1 : ℕ) : FloatV), height_px := ((1 : ℕ) : FloatV),
    origin_x := ((5 : ℕ) : FloatV), origin_y := ((0 : ℕ) : FloatV),
    x_dist_to_next_char_px := ((1 : ℕ) : FloatV), uv_coordinates := unit_uv_float }

/-- An atlas with the two unit glyphs under `A` and `B` and `default_scale` 1. -/
def atlas_units : FontAtlas FloatV :=
  { num_chars_per_screen_width := 50, default_scale := ((1 : ℕ) : FloatV),
    characters := [('A', glyph_unit), ('B', glyph_unit_origin_5)] }

/-- The float 2^24 = 16777216, from which on consecutive integers are no longer floats. -/
def two_pow_24 : FloatV := ((16777216 : ℕ) : FloatV)

/-! ## Vocabulary of the statements about construction -/

/-- Arithmetic mean of `width` over the items of a metrics description: their sum, added
up in item order, over their number. -/
def mean_width_of_items {α : Type} [Add α] [Div α] [NatCast α]
    (items : List (String × CharData α)) : α :=
  items.foldl (fun acc item => acc + item.2.width) ((0 : ℕ) : α) / ((items.length : ℕ) : α)

/-- Arithmetic mean of `width_px` over the records held in a glyph table. -/
def mean_width_px {α : Type} [Add α] [Div α] [NatCast α]
    (characters : UnorderedMap (Character α)) : α :=
  characters.foldl (fun acc entry => acc + entry.2.width_px) ((0 : ℕ) : α)
    / ((characters.length : ℕ) : α)

/-- The glyph record the constructor builds for one item. -/
def glyph_record {α : Type} (get_texture_coordinates_of_sub_texture : String → List (Vec2 α))
    (item : String × CharData α) : Character α :=
  { width_px := item.2.width
    height_px := item.2.height
    origin_x := item.2.originX
    origin_y := item.2.originY
    x_dist_to_next_char_px := item.2.advance
    uv_coordinates := get_texture_coordinates_of_sub_texture
      (String.singleton (charKey0 item.1)) }

/-- A texture atlas query that returns an empty sequence for every sprite name. -/
def atlas_without_sprites {α : Type} : String → List (Vec2 α) := fun _ => []

/-- A texture atlas query that returns four corners for every sprite name. -/
def atlas_unit_square : String → List (Vec2 FloatV) := fun _ => unit_uv_float

/-- Numeric fields of a metrics entry of the given width, with height 20, origins 0 and
advance 12. -/
def char_data (width : ℕ) : CharData FloatV :=
  { width := ((width : ℕ) : FloatV), height := ((20 : ℕ) : FloatV),
    originX := ((0 : ℕ) : FloatV), originY := ((0 : ℕ) : FloatV),
    advance := ((12 : ℕ) : FloatV) }

/-- The entry of the spec's scenario: `A` with width 10, height 20, origins 0, advance 12. -/
def item_A : String × CharData FloatV := ("A", char_data 10)

/-- The metrics of the spec's scenario: the single entry `A`. -/
def metrics_A : List (String × CharData FloatV) := [item_A]

/-- Metrics with two keys that start with the same character: widths 10 and 30. -/
def metrics_A_AB : List (String × CharData FloatV) := [("A", char_data 10), ("AB", char_data 30)]

/-- The entry `A` with width 0. -/
def item_zero_width : String × CharData FloatV := ("A", char_data 0)

/-- Metrics whose single entry has width 0. -/
def metrics_zero_width : List (String × CharData FloatV) := [item_zero_width]


/-! ## Rounding to binary32 -/

section Rounding

open FloatV

theorem FloatV.log2Fuel_spec (fuel n : ℕ) (hfuel : n ≤ fuel) (hn : n ≠ 0) :
    2 ^ log2Fuel fuel n ≤ n ∧ n < 2 ^ (log2Fuel fuel n + 1) := by
  induction fuel generalizing n with
  | zero => omega
  | succ fuel ih =>
    unfold log2Fuel
    split
    · rename_i h2
      have hdiv : n / 2 ≤ fuel := by omega
      have hne : n / 2 ≠ 0 := by omega
      obtain ⟨h1, h3⟩ := ih (n / 2) hdiv hne
      constructor
      · rw [pow_succ]; omega
      · rw [pow_succ] at h3 ⊢; omega
    · constructor <;> simp <;> omega

theorem FloatV.pow_ilog2_le (n : ℕ) (hn : n ≠ 0) : 2 ^ ilog2 n ≤ n :=
  (FloatV.log2Fuel_spec n n le_rfl hn).1

theorem FloatV.lt_pow_ilog2 (n : ℕ) : n < 2 ^ (ilog2 n + 1) := by
  by_cases hn : n = 0
  · subst hn; positivity
  · exact (FloatV.log2Fuel_spec n n le_rfl hn).2

theorem FloatV.ilog2_le_of_lt (n e : ℕ) (h : n < 2 ^ (e + 1)) : ilog2 n ≤ e := by
  by_cases hn : n = 0
  · subst hn; simp [ilog2, log2Fuel]
  · have h1 := FloatV.pow_ilog2_le n hn
    have h2 : 2 ^ ilog2 n < 2 ^ (e + 1) := lt_of_le_of_lt h1 h
    have := (Nat.pow_lt_pow_iff_right (by norm_num : 1 < 2)).mp h2
    omega

theorem FloatV.le_ilog2_of_le (n e : ℕ) (h : 2 ^ e ≤ n) : e ≤ ilog2 n := by
  have h2 : 2 ^ e < 2 ^ (ilog2 n + 1) := lt_of_le_of_lt h (FloatV.lt_pow_ilog2 n)
  have := (Nat.pow_lt_pow_iff_right (by norm_num : 1 < 2)).mp h2
  omega

theorem FloatV.roundNE_cases (p q : ℕ) :
    roundNE p q = p / (q * 2 ^ (ilog2 (p / q) - 23)) * 2 ^ (ilog2 (p / q) - 23)
    ∨ roundNE p q = (p / (q * 2 ^ (ilog2 (p / q) - 23)) + 1) * 2 ^ (ilog2 (p / q) - 23) := by
  unfold roundNE
  simp only []
  split_ifs <;> simp

theorem FloatV.shift_add (n : ℕ) : ilog2 n + 1 ≤ (ilog2 n - 23) + 24 := by omega

theorem FloatV.lo_lt (p q : ℕ) :
    p / (q * 2 ^ (ilog2 (p / q) - 23)) < 2 ^ 24 := by
  rw [← Nat.div_div_eq_div_mul]
  have h1 : p / q < 2 ^ ((ilog2 (p / q) - 23) + 24) :=
    lt_of_lt_of_le (FloatV.lt_pow_ilog2 (p / q))
      (Nat.pow_le_pow_right (by norm_num) (FloatV.shift_add _))
  rw [pow_add, mul_comm] at h1
  exact Nat.div_lt_of_lt_mul (by rwa [mul_comm] at h1)

theorem FloatV.lo_ge (p q : ℕ) (h : 24 ≤ ilog2 (p / q)) :
    2 ^ 23 ≤ p / (q * 2 ^ (ilog2 (p / q) - 23)) := by
  rw [← Nat.div_div_eq_div_mul]
  have hn : p / q ≠ 0 := by
    intro h0
    rw [h0] at h
    simp [ilog2, log2Fuel] at h
  have h1 := FloatV.pow_ilog2_le (p / q) hn
  have h2 : ilog2 (p / q) = 23 + (ilog2 (p / q) - 23) := by omega
  rw [h2, pow_add] at h1
  exact (Nat.le_div_iff_mul_le (by positivity)).mpr h1

theorem FloatV.representable_mul (c s : ℕ) (hc : c ≤ 2 ^ 24) : representable (c * 2 ^ s) := by
  unfold representable
  apply Nat.mod_eq_zero_of_dvd
  rcases Nat.lt_or_eq_of_le hc with hlt | heq
  · have hk : c * 2 ^ s < 2 ^ ((23 + s) + 1) := by
      have : c * 2 ^ s < 2 ^ 24 * 2 ^ s := Nat.mul_lt_mul_of_pos_right hlt (by positivity)
      rwa [← pow_add, show 24 + s = (23 + s) + 1 by ring] at this
    have hlog := FloatV.ilog2_le_of_lt _ _ hk
    exact Dvd.dvd.mul_left (Nat.pow_dvd_pow 2 (by omega)) c
  · subst heq
    rw [← pow_add]
    have hk : 2 ^ (24 + s) < 2 ^ ((24 + s) + 1) := Nat.pow_lt_pow_right (by norm_num) (by omega)
    have hlog := FloatV.ilog2_le_of_lt _ _ hk
    exact Nat.pow_dvd_pow 2 (by omega)

theorem FloatV.roundNE_representable (p q : ℕ) : representable (roundNE p q) := by
  have hlo := FloatV.lo_lt p q
  rcases FloatV.roundNE_cases p q with h | h <;> rw [h]
  · exact FloatV.representable_mul _ _ (by omega)
  · exact FloatV.representable_mul _ _ (by omega)

theorem FloatV.roundNE_exact (k q : ℕ) (hk : representable k) (hq : 0 < q) :
    roundNE (k * q) q = k := by
  unfold representable at hk
  obtain ⟨m, hm⟩ := Nat.dvd_of_mod_eq_zero hk
  have hdiv : k * q / q = k := Nat.mul_div_cancel k hq
  have hd : 0 < q * 2 ^ (ilog2 k - 23) := by positivity
  have hp : k * q = m * (q * 2 ^ (ilog2 k - 23)) := by
    conv_lhs => rw [hm]
    ring
  unfold roundNE
  simp only [hdiv]
  rw [hp, Nat.mul_mod_left, Nat.mul_div_cancel m hd, if_pos (by omega)]
  conv_rhs => rw [hm]
  ring

theorem FloatV.roundNE_lower (p q a : ℕ) (hq : 0 < q) (h : 2 ^ a * q ≤ p) :
    2 ^ a ≤ roundNE p q := by
  have hn : 2 ^ a ≤ p / q := (Nat.le_div_iff_mul_le hq).mpr h
  have hlog := FloatV.le_ilog2_of_le _ _ hn
  have hge : 2 ^ a ≤ p / (q * 2 ^ (ilog2 (p / q) - 23)) * 2 ^ (ilog2 (p / q) - 23) := by
    by_cases h24 : 24 ≤ ilog2 (p / q)
    · have hlo := FloatV.lo_ge p q h24
      calc 2 ^ a ≤ 2 ^ ilog2 (p / q) := Nat.pow_le_pow_right (by norm_num) hlog
        _ = 2 ^ 23 * 2 ^ (ilog2 (p / q) - 23) := by rw [← pow_add]; congr 1; omega
        _ ≤ _ := Nat.mul_le_mul_right _ hlo
    · have hs : ilog2 (p / q) - 23 = 0 := by omega
      rw [hs]
      simpa using hn
  rcases FloatV.roundNE_cases p q with h1 | h1 <;> rw [h1]
  · exact hge
  · exact le_trans hge (Nat.mul_le_mul_right _ (by omega))

theorem FloatV.representable_pow (b : ℕ) : representable (2 ^ b) := by
  have h := FloatV.representable_mul 1 b (by norm_num)
  simpa using h

theorem FloatV.roundNE_upper (p q b : ℕ) (hq : 0 < q) (h : p ≤ 2 ^ b * q) :
    roundNE p q ≤ 2 ^ b := by
  rcases Nat.lt_or_eq_of_le h with hlt | heq
  · have hn : p / q < 2 ^ b := (Nat.div_lt_iff_lt_mul hq).mpr hlt
    have hle : (p / (q * 2 ^ (ilog2 (p / q) - 23)) + 1) * 2 ^ (ilog2 (p / q) - 23) ≤ 2 ^ b := by
      by_cases h24 : 24 ≤ ilog2 (p / q)
      · have hlo := FloatV.lo_lt p q
        have hn0 : p / q ≠ 0 := by
          intro h0
          rw [h0] at h24
          simp [ilog2, log2Fuel] at h24
        have hpow : 2 ^ ilog2 (p / q) < 2 ^ b := lt_of_le_of_lt (FloatV.pow_ilog2_le _ hn0) hn
        have hlb := (Nat.pow_lt_pow_iff_right (by norm_num : 1 < 2)).mp hpow
        calc _ ≤ 2 ^ 24 * 2 ^ (ilog2 (p / q) - 23) := Nat.mul_le_mul_right _ (by omega)
          _ = 2 ^ (ilog2 (p / q) + 1) := by rw [← pow_add]; congr 1; omega
          _ ≤ 2 ^ b := Nat.pow_le_pow_right (by norm_num) (by omega)
      · have hs : ilog2 (p / q) - 23 = 0 := by omega
        rw [hs]
        simp only [pow_zero, mul_one]
        omega
    rcases FloatV.roundNE_cases p q with h1 | h1 <;> rw [h1]
    · exact le_trans (Nat.mul_le_mul_right _ (by omega)) hle
    · exact hle
  · rw [heq, FloatV.roundNE_exact _ _ (FloatV.representable_pow b) hq]

theorem FloatV.representable_zero : representable 0 := by
  simp [representable]

theorem FloatV.valid_ofRound (s : Bool) (p q : ℕ) : Valid (ofRound s p q) := by
  unfold ofRound
  split
  · rename_i h
    exact ⟨FloatV.roundNE_representable p q, h⟩
  · trivial

theorem FloatV.valid_add (a b : FloatV) : Valid (a + b) := by
  show Valid (add a b)
  cases a <;> cases b <;> simp only [add]
  · split_ifs
    · exact FloatV.valid_ofRound _ _ _
    · exact ⟨FloatV.representable_zero, Nat.zero_le _⟩
    · exact FloatV.valid_ofRound _ _ _
    · exact FloatV.valid_ofRound _ _ _
  all_goals first | trivial | (split_ifs <;> trivial)

theorem FloatV.valid_neg (a : FloatV) (h : Valid a) : Valid (neg a) := by
  cases a with
  | fin s k => exact h
  | inf s => trivial
  | nan => trivial

theorem FloatV.valid_sub (a b : FloatV) : Valid (a - b) := FloatV.valid_add a (neg b)

theorem FloatV.valid_mul (a b : FloatV) : Valid (a * b) := by
  show Valid (mul a b)
  cases a <;> cases b <;> simp only [mul]
  · exact FloatV.valid_ofRound _ _ _
  all_goals first | trivial | (split_ifs <;> trivial)

theorem FloatV.valid_div (a b : FloatV) : Valid (a / b) := by
  show Valid (div a b)
  cases a <;> cases b <;> simp only [div]
  · split_ifs
    · trivial
    · trivial
    · exact FloatV.valid_ofRound _ _ _
  all_goals trivial

theorem FloatV.natCast_small (n : ℕ) (hn : n ≤ 2 ^ 24) :
    ((n : ℕ) : FloatV) = fin false (n * 2 ^ 149) := by
  show ofRound false (n * 2 ^ 149) 1 = _
  have hexact : roundNE (n * 2 ^ 149) 1 = n * 2 ^ 149 := by
    have h := FloatV.roundNE_exact (n * 2 ^ 149) 1 (FloatV.representable_mul n 149 hn) (by norm_num)
    rwa [Nat.mul_one] at h
  have hmax : n * 2 ^ 149 ≤ maxK := by
    have : n * 2 ^ 149 ≤ 2 ^ 24 * 2 ^ 149 := Nat.mul_le_mul_right _ hn
    refine le_trans this ?_
    norm_num [maxK]
  rw [ofRound, hexact, if_pos hmax]

theorem FloatV.natCast_one : ((1 : ℕ) : FloatV) = fin false (2 ^ 149) := by
  rw [FloatV.natCast_small 1 (by norm_num), Nat.one_mul]

theorem FloatV.mul_one (v : FloatV) (hv : Valid v) : v * ((1 : ℕ) : FloatV) = v := by
  rw [FloatV.natCast_one]
  show mul v (fin false (2 ^ 149)) = v
  cases v with
  | fin s k =>
    obtain ⟨hrep, hmax⟩ := hv
    simp only [mul, ofRound, FloatV.roundNE_exact k (2 ^ 149) hrep (by positivity), if_pos hmax,
      Bool.xor_false]
  | inf s => simp [mul]
  | nan => rfl

end Rounding

/-! ## Addition of floats is monotone -/

section FloatOrder

open FloatV

end FloatOrder
/-! ## The loop of `generate_text_mesh` in closed form -/

section MeshLoopLemmas

variable {α : Type} [Add α] [Sub α] [Mul α] [Div α] [NatCast α]

theorem UnorderedMap.subscript_of_find {β : Type} (m : UnorderedMap β) (k : Char) (d v : β)
    (h : UnorderedMap.find m k = some v) : UnorderedMap.subscript m k d = m := by
  simp [UnorderedMap.subscript, h]

theorem UnorderedMap.get_of_find {β : Type} (m : UnorderedMap β) (k : Char) (d v : β)
    (h : UnorderedMap.find m k = some v) : UnorderedMap.get m k d = v := by
  simp [UnorderedMap.get, h]

theorem body_of_absent (y scale : α) (st : MeshLoop α) (c : Char)
    (h : UnorderedMap.find st.characters c = none) :
    FontAtlas.generate_text_mesh.body y scale st c = st := by
  simp [FontAtlas.generate_text_mesh.body, h]

theorem body_of_present (y scale : α) (st : MeshLoop α) (c : Char) (ch : Character α)
    (h : UnorderedMap.find st.characters c = some ch) :
    FontAtlas.generate_text_mesh.body y scale st c =
      { characters := st.characters
        x := st.x + ch.x_dist_to_next_char_px * scale
        vertex_positions := st.vertex_positions ++ glyph_quad y scale st.x ch
        texture_coordinates := st.texture_coordinates ++ ch.uv_coordinates
        index_batches := st.index_batches ++ [generate_rectangle_indices] } := by
  simp [FontAtlas.generate_text_mesh.body, h, UnorderedMap.subscript_of_find _ _ _ _ h,
    UnorderedMap.get_of_find _ _ _ _ h, glyph_quad]

theorem foldl_body (y scale : α) (text : List Char) (st : MeshLoop α) :
    text.foldl (FontAtlas.generate_text_mesh.body y scale) st =
      { characters := st.characters
        x := pen_after scale st.x (text.filterMap (UnorderedMap.find st.characters))
        vertex_positions := st.vertex_positions
          ++ layout_vertices y scale st.x (text.filterMap (UnorderedMap.find st.characters))
        texture_coordinates := st.texture_coordinates
          ++ (text.filterMap (UnorderedMap.find st.characters)).flatMap
              Character.uv_coordinates
        index_batches := st.index_batches
          ++ (text.filterMap (UnorderedMap.find st.characters)).map
              (fun _ => generate_rectangle_indices) } := by
  induction text generalizing st with
  | nil => simp [pen_after, layout_vertices]
  | cons c rest ih =>
    rw [List.foldl_cons]
    cases h : UnorderedMap.find st.characters c with
    | none =>
      rw [body_of_absent y scale st c h, ih, List.filterMap_cons_none h]
    | some ch =>
      rw [body_of_present y scale st c ch h, ih, List.filterMap_cons_some h]
      simp [pen_after, layout_vertices, List.append_assoc]

theorem generate_text_mesh_eq (self : FontAtlas α) (text : String) (x y scale : α) :
    self.generate_text_mesh text x y scale =
      ({ indices := flatten_and_increment_indices
           ((resolved_glyphs self.characters text).map (fun _ => generate_rectangle_indices))
         vertex_positions :=
           layout_vertices y (self.default_scale * scale) x (resolved_glyphs self.characters text)
         texture_coordinates :=
           (resolved_glyphs self.characters text).flatMap Character.uv_coordinates },
       self) := by
  simp [FontAtlas.generate_text_mesh, foldl_body, resolved_glyphs]

end MeshLoopLemmas

/-! ## Buffer shapes -/

theorem length_resolved_glyphs {α : Type} (characters : UnorderedMap (Character α)) (text : String) :
    (resolved_glyphs characters text).length
      = text.toList.countP (fun c => (UnorderedMap.find characters c).isSome) := by
  unfold resolved_glyphs
  induction text.toList with
  | nil => rfl
  | cons c rest ih =>
    cases h : UnorderedMap.find characters c with
    | none => simp [List.filterMap_cons_none h, List.countP_cons, h, ih]
    | some ch => simp [List.filterMap_cons_some h, List.countP_cons, h, ih]

section Shapes

variable {α : Type} [Add α] [Sub α] [Mul α] [Div α] [NatCast α]

theorem length_layout_vertices (y scale pen : α) (glyphs : List (Character α)) :
    (layout_vertices y scale pen glyphs).length = 4 * glyphs.length := by
  induction glyphs generalizing pen with
  | nil => rfl
  | cons ch rest ih =>
    simp [layout_vertices, glyph_quad, generate_rectangle_vertices, ih]
    omega

theorem flatten_go_replicate (m n : ℕ) :
    flatten_and_increment_indices.go (4 * m) (List.replicate n generate_rectangle_indices)
      = (List.range n).flatMap (fun k => quad_indices (m + k)) := by
  induction n generalizing m with
  | zero => rfl
  | succ n ih =>
    have h4 : 4 * m + 4 = 4 * (m + 1) := by ring
    rw [List.replicate_succ, flatten_and_increment_indices.go, h4, ih (m + 1),
      List.range_succ_eq_map, List.flatMap_cons, List.flatMap_map]
    congr 1
    · simp [generate_rectangle_indices, quad_indices, Nat.add_comm]
    · congr 1
      funext k
      simp [Function.comp, Nat.add_assoc, Nat.add_comm 1 k]

theorem indices_of_glyphs {β : Type} (glyphs : List β) :
    flatten_and_increment_indices (glyphs.map (fun _ => generate_rectangle_indices))
      = (List.range glyphs.length).flatMap quad_indices := by
  have h := flatten_go_replicate 0 glyphs.length
  simp only [Nat.mul_zero, Nat.zero_add] at h
  rw [flatten_and_increment_indices, ← h]
  congr 1
  exact List.map_const' glyphs generate_rectangle_indices

theorem length_flatMap_quad_indices (n : ℕ) :
    ((List.range n).flatMap quad_indices).length = 6 * n := by
  induction n with
  | zero => rfl
  | succ n ih =>
    rw [List.range_succ, List.flatMap_append, List.length_append, ih]
    simp [quad_indices]
    omega

theorem mem_flatMap_quad_indices (n i : ℕ)
    (h : i ∈ (List.range n).flatMap quad_indices) : i < 4 * n := by
  rw [List.mem_flatMap] at h
  obtain ⟨k, hk, hi⟩ := h
  rw [List.mem_range] at hk
  simp [quad_indices] at hi
  omega

end Shapes

/-! ## Claims about the shape and the indices of the mesh -/

section ShapeClaims

variable {α : Type} [Add α] [Sub α] [Mul α] [Div α] [NatCast α]

/-- C1 (as amended): for every glyph table, text, x, y and scale, with n the number of
characters of the text that are keys of the table, the mesh has `6 * n` indices and `4 * n`
vertex positions; its texture coordinates are the concatenation, in text order, of the
`uv_coordinates` of the resolved glyphs, so their number is the sum of the lengths of those
`uv_coordinates`, which is `4 * n` whenever every record of the table holds exactly 4. -/
theorem C1_mesh_lengths (self : FontAtlas α) (text : String) (x y scale : α) :
    (self.generate_text_mesh text x y scale).1.indices.length
        = 6 * text.toList.countP (fun c => (UnorderedMap.find self.characters c).isSome)
    ∧ (self.generate_text_mesh text x y scale).1.vertex_positions.length
        = 4 * text.toList.countP (fun c => (UnorderedMap.find self.characters c).isSome)
    ∧ (self.generate_text_mesh text x y scale).1.texture_coordinates
        = (resolved_glyphs self.characters text).flatMap Character.uv_coordinates
    ∧ (self.generate_text_mesh text x y scale).1.texture_coordinates.length
        = ((resolved_glyphs self.characters text).map
            (fun g => g.uv_coordinates.length)).sum
    ∧ ((∀ c g, UnorderedMap.find self.characters c = some g → g.uv_coordinates.length = 4) →
        (self.generate_text_mesh text x y scale).1.texture_coordinates.length
          = 4 * text.toList.countP (fun c => (UnorderedMap.find self.characters c).isSome)) := by
  rw [generate_text_mesh_eq, ← length_resolved_glyphs]
  refine ⟨?_, ?_, rfl, ?_, ?_⟩
  · simp only [indices_of_glyphs, length_flatMap_quad_indices]
  · exact length_layout_vertices _ _ _ _
  · simp only [List.length_flatMap]
    rfl
  · intro h4
    have hall : ∀ g ∈ resolved_glyphs self.characters text, g.uv_coordinates.length = 4 := by
      intro g hg
      obtain ⟨c, _, hc⟩ := List.mem_filterMap.mp hg
      exact h4 c g hc
    simp only [List.length_flatMap]
    generalize resolved_glyphs self.characters text = glyphs at hall
    induction glyphs with
    | nil => rfl
    | cons g rest ih =>
      have hg := hall g (List.mem_cons_self g rest)
      have hrest := ih (fun g2 hg2 => hall g2 (List.mem_cons_of_mem g hg2))
      simp only [List.map_cons, List.sum_cons, List.length_cons, Function.comp_apply, hg,
        hrest]
      omega

/-- C2: a character with no glyph record emits no quad and does not advance the pen: the
call on `text` returns what the call on the text without its unknown characters returns (the
mesh and the object alike), and it always returns. -/
theorem C2_unknown_characters_skipped (self : FontAtlas α) (text : String) (x y scale : α) :
    self.generate_text_mesh text x y scale
      = self.generate_text_mesh (known_characters self.characters text) x y scale := by
  have hres : resolved_glyphs self.characters (known_characters self.characters text)
      = resolved_glyphs self.characters text := by
    simp only [resolved_glyphs, known_characters]
    induction text.toList with
    | nil => rfl
    | cons c rest ih =>
      cases h : UnorderedMap.find self.characters c with
      | none => simpa [List.filter_cons, h] using ih
      | some ch => simpa [List.filter_cons, h] using ih
  rw [generate_text_mesh_eq, generate_text_mesh_eq, hres]

/-- C3: the indices of the mesh are, for k running over the resolved glyphs in order (skipped
characters not counted), the six numbers 4k, 4k+1, 4k+2, 4k+2, 4k+3, 4k; each of them lies
among the four vertex numbers 4k .. 4k+3 of that glyph, and every index is smaller than the
number of vertex positions. -/
theorem C3_indices (self : FontAtlas α) (text : String) (x y scale : α) :
    (self.generate_text_mesh text x y scale).1.indices
        = (List.range (resolved_glyphs self.characters text).length).flatMap quad_indices
    ∧ (∀ k, ∀ i ∈ quad_indices k, 4 * k ≤ i ∧ i < 4 * k + 4)
    ∧ ∀ i ∈ (self.generate_text_mesh text x y scale).1.indices,
        i < (self.generate_text_mesh text x y scale).1.vertex_positions.length := by
  rw [generate_text_mesh_eq]
  refine ⟨indices_of_glyphs _, ?_, ?_⟩
  · intro k i hi
    simp [quad_indices] at hi
    omega
  · intro i hi
    simp only [indices_of_glyphs] at hi
    simpa [length_layout_vertices] using mem_flatMap_quad_indices _ i hi

/-- C8: `generate_text_mesh` leaves the object as it found it (glyph table and
`default_scale` included), also when the text has characters that are not in the table, and
a second call with the same arguments on the object left by the first returns the same
mesh. -/
theorem C8_no_state_change (self : FontAtlas α) (text : String) (x y scale : α) :
    (self.generate_text_mesh text x y scale).2 = self
    ∧ ((self.generate_text_mesh text x y scale).2.generate_text_mesh text x y scale).1
        = (self.generate_text_mesh text x y scale).1 := by
  have h : (self.generate_text_mesh text x y scale).2 = self := by
    rw [generate_text_mesh_eq]
  exact ⟨h, by rw [h]⟩

end ShapeClaims

/-- C1 at the table holding `A` only and the text "AB": 6 indices, 4 vertex positions and
the 4 texture coordinates of `A`. -/
theorem C1_mesh_lengths_witness :
    (atlas_A.generate_text_mesh "AB" 0 0 1).1.indices.length = 6
    ∧ (atlas_A.generate_text_mesh "AB" 0 0 1).1.vertex_positions.length = 4
    ∧ (atlas_A.generate_text_mesh "AB" 0 0 1).1.texture_coordinates = unit_uv
    ∧ (atlas_A.generate_text_mesh "AB" 0 0 1).1.texture_coordinates.length = 4 := by
  have hn : "AB".toList.countP (fun c => (UnorderedMap.find atlas_A.characters c).isSome) = 1 := by
    simp [atlas_A, UnorderedMap.find, List.countP_cons]
  have huv : ∀ c g, UnorderedMap.find atlas_A.characters c = some g →
      g.uv_coordinates.length = 4 := by
    intro c g h
    simp only [atlas_A, UnorderedMap.find] at h
    split at h
    · cases h; rfl
    · cases h
  have h := C1_mesh_lengths atlas_A "AB" 0 0 1
  have hres : resolved_glyphs atlas_A.characters "AB" = [glyph_A] := by
    simp [resolved_glyphs, atlas_A, UnorderedMap.find]
  rw [hn] at h
  refine ⟨h.1, h.2.1, ?_, h.2.2.2.2 huv⟩
  rw [h.2.2.1, hres]
  rfl

/-- C2 at the table holding `A` only: "AB" gives the mesh of "A", with 4 vertices and the 6
indices 0, 1, 2, 2, 3, 0. -/
theorem C2_unknown_characters_skipped_witness :
    atlas_A.generate_text_mesh "AB" 0 0 1 = atlas_A.generate_text_mesh "A" 0 0 1
    ∧ (atlas_A.generate_text_mesh "AB" 0 0 1).1.vertex_positions.length = 4
    ∧ (atlas_A.generate_text_mesh "AB" 0 0 1).1.indices = [0, 1, 2, 2, 3, 0] := by
  have hknown : known_characters atlas_A.characters "AB" = "A" := by
    simp [known_characters, atlas_A, UnorderedMap.find, List.filter_cons]
  have h := C2_unknown_characters_skipped atlas_A "AB" 0 0 1
  rw [hknown] at h
  have hres : resolved_glyphs atlas_A.characters "A" = [glyph_A] := by
    simp [resolved_glyphs, atlas_A, UnorderedMap.find]
  refine ⟨h, ?_, ?_⟩
  · rw [h, generate_text_mesh_eq, length_layout_vertices, hres]
    rfl
  · rw [h, generate_text_mesh_eq, hres]
    rfl

/-- C3 at the table holding `A` only and the text "ABA": the second `A` is glyph number 1
and gets the indices 4, 5, 6, 6, 7, 4. -/
theorem C3_indices_witness :
    (atlas_A.generate_text_mesh "ABA" 0 0 1).1.indices
      = [0, 1, 2, 2, 3, 0, 4, 5, 6, 6, 7, 4] := by
  have hres : resolved_glyphs atlas_A.characters "ABA" = [glyph_A, glyph_A] := by
    simp [resolved_glyphs, atlas_A, UnorderedMap.find]
  rw [(C3_indices atlas_A "ABA" 0 0 1).1, hres]
  rfl

/-! ## Where each quad is placed -/

section Placement

variable {α : Type} [Add α] [Sub α] [Mul α] [Div α] [NatCast α]

theorem length_glyph_quad (y scale pen : α) (ch : Character α) :
    (glyph_quad y scale pen ch).length = 4 := rfl

theorem layout_vertices_quad (y scale : α) (glyphs : List (Character α)) (pen : α) (k : ℕ)
    (g : Character α) (hk : glyphs.get? k = some g) :
    ((layout_vertices y scale pen glyphs).drop (4 * k)).take 4
      = glyph_quad y scale (pen_after scale pen (glyphs.take k)) g := by
  induction glyphs generalizing pen k with
  | nil => simp at hk
  | cons ch rest ih =>
    cases k with
    | zero =>
      simp only [List.get?_cons_zero, Option.some.injEq] at hk
      subst hk
      simp only [layout_vertices, Nat.mul_zero, List.drop_zero, List.take_zero, pen_after]
      exact List.take_left' (length_glyph_quad y scale pen ch)
    | succ k =>
      simp only [List.get?_cons_succ] at hk
      have hdrop : 4 * (k + 1) = (glyph_quad y scale pen ch).length + 4 * k := by
        rw [length_glyph_quad]; ring
      simp only [layout_vertices, List.take_succ_cons, pen_after]
      rw [hdrop, List.drop_append]
      exact ih _ k hk

/-- C10 (as amended): with s = default_scale * scale, the k-th resolved glyph g of a text
laid out from (x, y) gets 4 vertices at z = 0: the corners (cx - w/2, cy - h/2),
(cx + w/2, cy - h/2), (cx + w/2, cy + h/2), (cx - w/2, cy + h/2) around the centre
cx = xpos + w/2, cy = ypos + h/2, where w = g.width_px * s, h = g.height_px * s,
xpos = pen - g.origin_x * s, ypos = y - (g.height_px - g.origin_y) * s and pen is x advanced,
in text order, by advance * s for each resolved glyph before g; every operation is the
float operation of the number type, and the same y enters every quad. -/
theorem C10_quad_placement (self : FontAtlas α) (text : String) (x y scale : α) (k : ℕ)
    (g : Character α) (hk : (resolved_glyphs self.characters text).get? k = some g) :
    ∃ s pen xpos ypos w h : α,
      s = self.default_scale * scale
      ∧ pen = pen_after s x ((resolved_glyphs self.characters text).take k)
      ∧ xpos = pen - g.origin_x * s
      ∧ ypos = y - (g.height_px - g.origin_y) * s
      ∧ w = g.width_px * s
      ∧ h = g.height_px * s
      ∧ ((self.generate_text_mesh text x y scale).1.vertex_positions.drop (4 * k)).take 4
        = [ ⟨xpos + w / ((2 : ℕ) : α) - w / ((2 : ℕ) : α),
             ypos + h / ((2 : ℕ) : α) - h / ((2 : ℕ) : α), ((0 : ℕ) : α)⟩,
            ⟨xpos + w / ((2 : ℕ) : α) + w / ((2 : ℕ) : α),
             ypos + h / ((2 : ℕ) : α) - h / ((2 : ℕ) : α), ((0 : ℕ) : α)⟩,
            ⟨xpos + w / ((2 : ℕ) : α) + w / ((2 : ℕ) : α),
             ypos + h / ((2 : ℕ) : α) + h / ((2 : ℕ) : α), ((0 : ℕ) : α)⟩,
            ⟨xpos + w / ((2 : ℕ) : α) - w / ((2 : ℕ) : α),
             ypos + h / ((2 : ℕ) : α) + h / ((2 : ℕ) : α), ((0 : ℕ) : α)⟩ ] := by
  refine ⟨_, _, _, _, _, _, rfl, rfl, rfl, rfl, rfl, rfl, ?_⟩
  rw [generate_text_mesh_eq,
    layout_vertices_quad y (self.default_scale * scale) _ x k g hk]
  rfl

end Placement

/-! ## The same placement when no operation rounds -/

section ExactArithmetic

variable {α : Type} [LinearOrderedField α]

theorem glyph_quad_eq_rectangle (y scale pen : α) (ch : Character α) :
    glyph_quad y scale pen ch
      = rectangle_from_lower_left (pen - ch.origin_x * scale)
          (y - (ch.height_px - ch.origin_y) * scale)
          (ch.width_px * scale) (ch.height_px * scale) := by
  simp only [glyph_quad, generate_rectangle_vertices, rectangle_from_lower_left,
    Nat.cast_ofNat, Nat.cast_zero]
  refine congrArg₂ _ ?_ (congrArg₂ _ ?_ (congrArg₂ _ ?_ (congrArg₂ _ ?_ rfl))) <;>
    refine congrArg₂ (fun a b => Vec3.mk a b 0) ?_ ?_ <;> ring

theorem pen_after_eq_sum (scale pen : α) (glyphs : List (Character α)) :
    pen_after scale pen glyphs
      = pen + scale * (glyphs.map Character.x_dist_to_next_char_px).sum := by
  induction glyphs generalizing pen with
  | nil => simp [pen_after]
  | cons ch rest ih =>
    simp only [pen_after, ih, List.map_cons, List.sum_cons]
    ring

theorem quad_placement_exact (self : FontAtlas α) (text : String) (x y scale : α) (k : ℕ)
    (g : Character α) (hk : (resolved_glyphs self.characters text).get? k = some g) :
    ((self.generate_text_mesh text x y scale).1.vertex_positions.drop (4 * k)).take 4
      = rectangle_from_lower_left
          (x + self.default_scale * scale
              * (((resolved_glyphs self.characters text).take k).map
                  Character.x_dist_to_next_char_px).sum
            - g.origin_x * (self.default_scale * scale))
          (y - (g.height_px - g.origin_y) * (self.default_scale * scale))
          (g.width_px * (self.default_scale * scale))
          (g.height_px * (self.default_scale * scale)) := by
  rw [generate_text_mesh_eq]
  rw [layout_vertices_quad y (self.default_scale * scale) _ x k g hk,
    glyph_quad_eq_rectangle, pen_after_eq_sum]

end ExactArithmetic

/-! ## Order of the quad x-origins in float arithmetic -/

section PlacementClaims

open FloatV

end PlacementClaims

/-! ## Placement at concrete inputs -/

section PlacementInstances

set_option maxRecDepth 100000

open FloatV

theorem two_pow_24_eq : two_pow_24 = FloatV.fin false (16777216 * 2 ^ 149) := by
  decide

/-- C10 as stated fails: with a glyph of width 1, height 1, advance 1 and origins 0,
`default_scale` 1 and the text "AA" laid out from (2^24, 0) at scale 1, all eight vertices
have x = 2^24: both quads have width 0 and the second starts where the first does, while
the claim gives the second quad the lower-left x 2^24 + 1 and both quads the width 1. -/
theorem C10_counterexample :
    ((atlas_units.generate_text_mesh "AA" two_pow_24 ((0 : ℕ) : FloatV)
        ((1 : ℕ) : FloatV)).1.vertex_positions.map Vec3.x) = List.replicate 8 two_pow_24
    ∧ two_pow_24.toRat = 16777216
    ∧ two_pow_24.toRat
        + (atlas_units.default_scale * ((1 : ℕ) : FloatV)).toRat
            * glyph_unit.x_dist_to_next_char_px.toRat
        - glyph_unit.origin_x.toRat * (atlas_units.default_scale * ((1 : ℕ) : FloatV)).toRat
      = 16777217
    ∧ glyph_unit.width_px.toRat * (atlas_units.default_scale * ((1 : ℕ) : FloatV)).toRat
      = 1 := by
  have hs : atlas_units.default_scale * ((1 : ℕ) : FloatV) = FloatV.fin false (2 ^ 149) := by
    decide
  have hadv : glyph_unit.x_dist_to_next_char_px = FloatV.fin false (2 ^ 149) := by decide
  have hw : glyph_unit.width_px = FloatV.fin false (2 ^ 149) := by decide
  have hox : glyph_unit.origin_x = FloatV.fin false 0 := by decide
  refine ⟨by decide, ?_, ?_, ?_⟩
  · rw [two_pow_24_eq]
    norm_num [toRat, toInt]
  · rw [two_pow_24_eq, hs, hadv, hox]
    norm_num [toRat, toInt]
  · rw [hs, hw]
    norm_num [toRat, toInt]

/-- C10 (as amended) at the second glyph of "AA" laid out from (0, 0) at scale 1 with the
unit glyph: the pen has advanced to 1 and the quad has the corners (1, -1), (2, -1), (2, 0),
(1, 0) at z = 0. -/
theorem C10_quad_placement_witness :
    (((atlas_units.generate_text_mesh "AA" ((0 : ℕ) : FloatV) ((0 : ℕ) : FloatV)
        ((1 : ℕ) : FloatV)).1.vertex_positions.drop (4 * 1)).take 4)
      = [ ⟨((1 : ℕ) : FloatV), FloatV.neg ((1 : ℕ) : FloatV), ((0 : ℕ) : FloatV)⟩,
          ⟨((2 : ℕ) : FloatV), FloatV.neg ((1 : ℕ) : FloatV), ((0 : ℕ) : FloatV)⟩,
          ⟨((2 : ℕ) : FloatV), ((0 : ℕ) : FloatV), ((0 : ℕ) : FloatV)⟩,
          ⟨((1 : ℕ) : FloatV), ((0 : ℕ) : FloatV), ((0 : ℕ) : FloatV)⟩ ] := by
  obtain ⟨s, pen, xpos, ypos, w, h, hs, hpen, hxpos, hypos, hw, hh, hquad⟩ :=
    C10_quad_placement atlas_units "AA" ((0 : ℕ) : FloatV) ((0 : ℕ) : FloatV)
      ((1 : ℕ) : FloatV) 1 glyph_unit (by decide)
  rw [hquad]
  subst hs hpen hxpos hypos hw hh
  decide

end PlacementInstances

/-! ## The loop of the constructor in closed form -/

section CtorLemmas

theorem UnorderedMap.find_assign {β : Type} (m : UnorderedMap β) (c k : Char) (v : β) :
    UnorderedMap.find (UnorderedMap.assign m c v) k
      = if c = k then some v else UnorderedMap.find m k := by
  induction m with
  | nil => simp [UnorderedMap.assign, UnorderedMap.find]
  | cons e rest ih =>
    obtain ⟨k0, w⟩ := e
    by_cases h0 : k0 = c
    · subst h0
      simp only [UnorderedMap.assign, if_true, UnorderedMap.find]
      split <;> rfl
    · simp only [UnorderedMap.assign, if_neg h0, UnorderedMap.find, ih]
      by_cases hk : k0 = k
      · subst hk
        simp [h0, Ne.symm h0]
      · simp [hk]

theorem UnorderedMap.assign_of_absent {β : Type} (m : UnorderedMap β) (c : Char) (v : β)
    (h : UnorderedMap.find m c = none) : UnorderedMap.assign m c v = m ++ [(c, v)] := by
  induction m with
  | nil => rfl
  | cons e rest ih =>
    obtain ⟨k0, w⟩ := e
    by_cases h0 : k0 = c
    · simp [UnorderedMap.find, h0] at h
    · simp only [UnorderedMap.find, if_neg h0] at h
      simp [UnorderedMap.assign, h0, ih h]

theorem UnorderedMap.find_append_singleton {β : Type} (m : UnorderedMap β) (c k : Char)
    (v : β) (h : UnorderedMap.find m k = none) (hck : c ≠ k) :
    UnorderedMap.find (m ++ [(c, v)]) k = none := by
  induction m with
  | nil => simp [UnorderedMap.find, hck]
  | cons e rest ih =>
    obtain ⟨k0, w⟩ := e
    by_cases h0 : k0 = k
    · simp [UnorderedMap.find, h0] at h
    · simp only [UnorderedMap.find, if_neg h0] at h
      simp [UnorderedMap.find, h0, ih h]

theorem ctor_foldl {α : Type} [Add α] (atlas : String → List (Vec2 α)) (items : List (String × CharData α))
    (st : α × UnorderedMap (Character α)) :
    items.foldl (FontAtlas.ctor.body atlas) st
      = (items.foldl (fun acc item => acc + item.2.width) st.1,
         items.foldl
           (fun m item => UnorderedMap.assign m (charKey0 item.1) (glyph_record atlas item))
           st.2) := by
  induction items generalizing st with
  | nil => rfl
  | cons item rest ih =>
    rw [List.foldl_cons, ih]
    rfl

theorem ctor_table_uv {α : Type} (atlas : String → List (Vec2 α)) (items : List (String × CharData α))
    (m : UnorderedMap (Character α))
    (hm : ∀ c g, UnorderedMap.find m c = some g →
      g.uv_coordinates = atlas (String.singleton c)) :
    ∀ c g, UnorderedMap.find (items.foldl
        (fun m item => UnorderedMap.assign m (charKey0 item.1) (glyph_record atlas item)) m) c
        = some g →
      g.uv_coordinates = atlas (String.singleton c) := by
  induction items generalizing m with
  | nil => exact hm
  | cons item rest ih =>
    rw [List.foldl_cons]
    apply ih
    intro c g hfind
    rw [UnorderedMap.find_assign] at hfind
    split at hfind
    · rename_i hc
      cases hfind
      rw [← hc]
      rfl
    · exact hm c g hfind

theorem ctor_table_of_nodup {α : Type} (atlas : String → List (Vec2 α))
    (items : List (String × CharData α)) (m : UnorderedMap (Character α))
    (hm : ∀ item ∈ items, UnorderedMap.find m (charKey0 item.1) = none)
    (hnodup : (items.map (fun item => charKey0 item.1)).Nodup) :
    items.foldl
        (fun m item => UnorderedMap.assign m (charKey0 item.1) (glyph_record atlas item)) m
      = m ++ items.map (fun item => (charKey0 item.1, glyph_record atlas item)) := by
  induction items generalizing m with
  | nil => simp
  | cons item rest ih =>
    rw [List.map_cons, List.nodup_cons] at hnodup
    rw [List.foldl_cons,
      UnorderedMap.assign_of_absent m _ _ (hm item (List.mem_cons_self item rest)),
      ih _ _ hnodup.2]
    · simp
    · intro item2 h2
      apply UnorderedMap.find_append_singleton _ _ _ _
        (hm item2 (List.mem_cons_of_mem item h2))
      intro heq
      exact hnodup.1 (List.mem_map.mpr ⟨item2, h2, heq.symm⟩)

end CtorLemmas

/-! ## Claims about construction -/

section CtorClaims

open FloatV

theorem ctor_default_scale {α : Type} [Add α] [Mul α] [Div α] [NatCast α] (u : α)
    (items : List (String × CharData α)) (atlas : String → List (Vec2 α)) :
    (FontAtlas.ctor u (some items) atlas).default_scale
      = ((2 : ℕ) : α) / mean_width_of_items items * ((1 : ℕ) : α) / ((50 : ℕ) : α) := by
  simp only [FontAtlas.ctor, ctor_foldl, mean_width_of_items]

theorem ctor_characters {α : Type} [Add α] [Mul α] [Div α] [NatCast α] (u : α)
    (items : List (String × CharData α)) (atlas : String → List (Vec2 α)) :
    (FontAtlas.ctor u (some items) atlas).characters
      = items.foldl
          (fun m item => UnorderedMap.assign m (charKey0 item.1) (glyph_record atlas item))
          [] := by
  simp only [FontAtlas.ctor, ctor_foldl]

theorem ctor_default_scale_FloatV (u : FloatV) (items : List (String × CharData FloatV))
    (atlas : String → List (Vec2 FloatV)) :
    (FontAtlas.ctor u (some items) atlas).default_scale
      = ((2 : ℕ) : FloatV) / mean_width_of_items items / ((50 : ℕ) : FloatV) := by
  rw [ctor_default_scale, FloatV.mul_one _ (FloatV.valid_div _ _)]

theorem FloatV.natCast_zero : ((0 : ℕ) : FloatV) = fin false 0 := by
  rw [FloatV.natCast_small 0 (by norm_num), Nat.zero_mul]

theorem mean_width_of_no_items :
    mean_width_of_items ([] : List (String × CharData FloatV)) = FloatV.nan := by
  simp only [mean_width_of_items, List.foldl_nil, List.length_nil, FloatV.natCast_zero]
  rfl

theorem default_scale_of_no_items (u : FloatV) (atlas : String → List (Vec2 FloatV)) :
    (FontAtlas.ctor u (some []) atlas).default_scale = FloatV.nan := by
  rw [ctor_default_scale_FloatV, mean_width_of_no_items,
    FloatV.natCast_small 2 (by norm_num), FloatV.natCast_small 50 (by norm_num)]
  rfl

/-- C4 (as amended): after construction `default_scale = (2 / m) / 50` where m is the
arithmetic mean of `width` over all entries of the metrics description, whatever their keys;
m is the mean of `width_px` over the records held in the glyph table when no two keys start
with the same character. -/
theorem C4_default_scale (u : FloatV) (items : List (String × CharData FloatV))
    (atlas : String → List (Vec2 FloatV)) :
    (FontAtlas.ctor u (some items) atlas).default_scale
        = ((2 : ℕ) : FloatV) / mean_width_of_items items / ((50 : ℕ) : FloatV)
    ∧ ((items.map (fun item => charKey0 item.1)).Nodup →
        mean_width_px (FontAtlas.ctor u (some items) atlas).characters
          = mean_width_of_items items) := by
  refine ⟨ctor_default_scale_FloatV u items atlas, ?_⟩
  · intro hnodup
    rw [ctor_characters, ctor_table_of_nodup atlas items [] (fun _ _ => rfl) hnodup]
    simp only [mean_width_px, mean_width_of_items, List.nil_append, List.length_map,
      List.foldl_map]
    rfl

/-- C5 (as amended): construction signals nothing to its caller on these two paths.  When
the metrics source cannot be opened it returns the object with an empty glyph table and
`default_scale` never assigned; when the description holds zero character entries it returns
the object with an empty glyph table and `default_scale = NaN` (0 / 0). -/
theorem C5_construction_returns (u : FloatV) (atlas : String → List (Vec2 FloatV)) :
    FontAtlas.ctor u none atlas
        = { num_chars_per_screen_width := 50, default_scale := u, characters := [] }
    ∧ FontAtlas.ctor u (some []) atlas
        = { num_chars_per_screen_width := 50, default_scale := FloatV.nan,
            characters := [] } := by
  refine ⟨rfl, ?_⟩
  have hscale := default_scale_of_no_items u atlas
  have hchars : (FontAtlas.ctor u (some []) atlas).characters = [] := ctor_characters u [] atlas
  have hn : (FontAtlas.ctor u (some []) atlas).num_chars_per_screen_width = 50 := rfl
  cases hc : FontAtlas.ctor u (some []) atlas with
  | mk n d chars =>
    rw [hc] at hscale hchars hn
    simp only at hscale hchars hn
    subst hscale hchars hn
    rfl

theorem FloatV.maxK_lt : maxK < 2 ^ 277 := by norm_num [maxK]

theorem FloatV.le_maxK : 2 ^ 276 ≤ maxK := by norm_num [maxK]

/-- C6 (as amended): whenever the mean width the constructor computes (float sum of the
widths of all entries over their number) is a finite float not below 2^-126, the smallest
normal float, `default_scale` is finite and strictly positive; it lies between 2^-133 and
2^122. -/
theorem C6_default_scale_positive (u : FloatV) (items : List (String × CharData FloatV))
    (atlas : String → List (Vec2 FloatV)) (k : ℕ)
    (hmean : mean_width_of_items items = FloatV.fin false k) (hk : 2 ^ 23 ≤ k) :
    (∃ kd, (FontAtlas.ctor u (some items) atlas).default_scale = FloatV.fin false kd
        ∧ 2 ^ 16 ≤ kd ∧ kd ≤ 2 ^ 271)
    ∧ (FontAtlas.ctor u (some items) atlas).default_scale.isFinite = true
    ∧ (FontAtlas.ctor u (some items) atlas).default_scale.isPositive = true := by
  have hvalid : Valid (mean_width_of_items items) := FloatV.valid_div _ _
  rw [hmean] at hvalid
  have hkmax : k ≤ maxK := hvalid.2
  have hk0 : k ≠ 0 := by
    have : 0 < 2 ^ 23 := by norm_num
    omega
  -- 2 / m
  have hlow1 : 2 ^ 22 ≤ roundNE (2 * 2 ^ 149 * 2 ^ 149) k := by
    apply FloatV.roundNE_lower _ _ _ (by omega)
    calc 2 ^ 22 * k ≤ 2 ^ 22 * 2 ^ 277 :=
          Nat.mul_le_mul_left _ (le_of_lt (lt_of_le_of_lt hkmax FloatV.maxK_lt))
      _ = 2 * 2 ^ 149 * 2 ^ 149 := by norm_num
  have hup1 : roundNE (2 * 2 ^ 149 * 2 ^ 149) k ≤ 2 ^ 276 := by
    apply FloatV.roundNE_upper _ _ _ (by omega)
    calc 2 * 2 ^ 149 * 2 ^ 149 = 2 ^ 276 * 2 ^ 23 := by norm_num
      _ ≤ 2 ^ 276 * k := Nat.mul_le_mul_left _ hk
  have hdiv1 : ((2 : ℕ) : FloatV) / FloatV.fin false k
      = FloatV.fin false (roundNE (2 * 2 ^ 149 * 2 ^ 149) k) := by
    rw [FloatV.natCast_small 2 (by norm_num)]
    show div (FloatV.fin false (2 * 2 ^ 149)) (FloatV.fin false k) = _
    simp only [div, if_neg hk0, ofRound, if_pos (le_trans hup1 FloatV.le_maxK), Bool.xor_false]
  -- (2 / m) / 50
  generalize roundNE (2 * 2 ^ 149 * 2 ^ 149) k = k1 at hlow1 hup1 hdiv1
  have hlow2 : 2 ^ 16 ≤ roundNE (k1 * 2 ^ 149) (50 * 2 ^ 149) := by
    apply FloatV.roundNE_lower _ _ _ (by norm_num)
    calc 2 ^ 16 * (50 * 2 ^ 149) ≤ 2 ^ 22 * 2 ^ 149 := by norm_num
      _ ≤ k1 * 2 ^ 149 := Nat.mul_le_mul_right _ hlow1
  have hup2 : roundNE (k1 * 2 ^ 149) (50 * 2 ^ 149) ≤ 2 ^ 271 := by
    apply FloatV.roundNE_upper _ _ _ (by norm_num)
    calc k1 * 2 ^ 149 ≤ 2 ^ 276 * 2 ^ 149 := Nat.mul_le_mul_right _ hup1
      _ ≤ 2 ^ 271 * (50 * 2 ^ 149) := by norm_num
  have hmax2 : roundNE (k1 * 2 ^ 149) (50 * 2 ^ 149) ≤ maxK :=
    le_trans hup2 (by norm_num [maxK])
  have hscale : (FontAtlas.ctor u (some items) atlas).default_scale
      = FloatV.fin false (roundNE (k1 * 2 ^ 149) (50 * 2 ^ 149)) := by
    rw [ctor_default_scale_FloatV, hmean, hdiv1, FloatV.natCast_small 50 (by norm_num)]
    show div (FloatV.fin false k1) (FloatV.fin false (50 * 2 ^ 149)) = _
    simp only [div, if_neg (show 50 * 2 ^ 149 ≠ 0 by norm_num), ofRound, if_pos hmax2,
      Bool.xor_false]
  refine ⟨⟨_, hscale, hlow2, hup2⟩, ?_, ?_⟩
  · rw [hscale]; rfl
  · rw [hscale]
    have hpos : 0 < roundNE (k1 * 2 ^ 149) (50 * 2 ^ 149) :=
      lt_of_lt_of_le (by norm_num) hlow2
    simp only [isPositive, lt, toInt, decide_eq_true_eq]
    exact_mod_cast hpos

/-- C9 (as amended): every glyph record placed in the glyph table by construction holds as
`uv_coordinates` exactly the sequence the texture atlas query returned for the sprite named
by the record's character; the constructor does not look at its length, so the record has 4
entries exactly when the query returned 4. -/
theorem C9_uv_from_atlas {α : Type} [Add α] [Mul α] [Div α] [NatCast α] (u : α)
    (file : Option (List (String × CharData α))) (atlas : String → List (Vec2 α))
    (c : Char) (g : Character α)
    (hfind : UnorderedMap.find (FontAtlas.ctor u file atlas).characters c = some g) :
    g.uv_coordinates = atlas (String.singleton c)
    ∧ (g.uv_coordinates.length = 4 ↔ (atlas (String.singleton c)).length = 4) := by
  have huv : g.uv_coordinates = atlas (String.singleton c) := by
    cases file with
    | none => simp [FontAtlas.ctor, UnorderedMap.find] at hfind
    | some items =>
      rw [ctor_characters] at hfind
      exact ctor_table_uv atlas items [] (fun c g h => by simp [UnorderedMap.find] at h)
        c g hfind
  exact ⟨huv, by rw [huv]⟩

end CtorClaims

/-! ## Construction at concrete inputs -/

section CtorInstances

set_option maxRecDepth 100000

theorem characters_single (u : FloatV) (atlas : String → List (Vec2 FloatV))
    (item : String × CharData FloatV) :
    (FontAtlas.ctor u (some [item]) atlas).characters
      = [(charKey0 item.1, glyph_record atlas item)] := by
  rw [ctor_characters]
  rfl

theorem mean_width_metrics_A :
    mean_width_of_items metrics_A = FloatV.fin false (10 * 2 ^ 149) := by
  decide

/-- C1 as stated fails: construction from the entry `A` with a texture atlas whose query
returns an empty sequence yields a table in which `A` has no UV entries; for the text "A"
the mesh then has one resolved glyph, 6 indices, 4 vertex positions and 0 texture
coordinates. -/
theorem C1_counterexample :
    "A".toList.countP (fun c => (UnorderedMap.find
        (FontAtlas.ctor FloatV.nan (some metrics_A) atlas_without_sprites).characters
        c).isSome) = 1
    ∧ (((FontAtlas.ctor FloatV.nan (some metrics_A) atlas_without_sprites).generate_text_mesh
        "A" ((0 : ℕ) : FloatV) ((0 : ℕ) : FloatV) ((1 : ℕ) : FloatV)).1.indices.length = 6)
    ∧ (((FontAtlas.ctor FloatV.nan (some metrics_A) atlas_without_sprites).generate_text_mesh
        "A" ((0 : ℕ) : FloatV) ((0 : ℕ) : FloatV) ((1 : ℕ) : FloatV)).1.vertex_positions.length
          = 4)
    ∧ (((FontAtlas.ctor FloatV.nan (some metrics_A) atlas_without_sprites).generate_text_mesh
        "A" ((0 : ℕ) : FloatV) ((0 : ℕ) : FloatV)
        ((1 : ℕ) : FloatV)).1.texture_coordinates.length = 0) := by
  have hchars := characters_single FloatV.nan atlas_without_sprites item_A
  have hres : resolved_glyphs
      (FontAtlas.ctor FloatV.nan (some metrics_A) atlas_without_sprites).characters "A"
      = [glyph_record atlas_without_sprites item_A] := by
    rw [metrics_A, hchars]
    simp [resolved_glyphs, UnorderedMap.find, charKey0, item_A]
  refine ⟨?_, ?_, ?_, ?_⟩
  · rw [metrics_A, hchars]
    simp [UnorderedMap.find, charKey0, item_A]
  · rw [generate_text_mesh_eq, hres]
    rfl
  · rw [generate_text_mesh_eq, hres, length_layout_vertices]
    rfl
  · rw [generate_text_mesh_eq, hres]
    rfl

/-- C4 as stated fails: for the keys "A" (width 10) and "AB" (width 30) the table holds one
record, of width 30, so the claimed value is (2 / 30) / 50, the float 11453247 * 2^-33,
while construction yields (2 / 20) / 50, the float 8589935 * 2^-32. -/
theorem C4_counterexample :
    (FontAtlas.ctor FloatV.nan (some metrics_A_AB) atlas_unit_square).characters.length = 1
    ∧ mean_width_px (FontAtlas.ctor FloatV.nan (some metrics_A_AB)
        atlas_unit_square).characters = ((30 : ℕ) : FloatV)
    ∧ (FontAtlas.ctor FloatV.nan (some metrics_A_AB) atlas_unit_square).default_scale
        = FloatV.fin false (8589935 * 2 ^ 117)
    ∧ ((2 : ℕ) : FloatV)
          / mean_width_px (FontAtlas.ctor FloatV.nan (some metrics_A_AB)
              atlas_unit_square).characters
          / ((50 : ℕ) : FloatV) = FloatV.fin false (11453247 * 2 ^ 116)
    ∧ (FontAtlas.ctor FloatV.nan (some metrics_A_AB) atlas_unit_square).default_scale
      ≠ ((2 : ℕ) : FloatV)
          / mean_width_px (FontAtlas.ctor FloatV.nan (some metrics_A_AB)
              atlas_unit_square).characters
          / ((50 : ℕ) : FloatV) := by
  have hchars : (FontAtlas.ctor FloatV.nan (some metrics_A_AB) atlas_unit_square).characters
      = [('A', glyph_record atlas_unit_square ("AB", char_data 30))] := by
    rw [ctor_characters]
    simp [metrics_A_AB, UnorderedMap.assign, charKey0]
  have hmean : mean_width_px (FontAtlas.ctor FloatV.nan (some metrics_A_AB)
      atlas_unit_square).characters = ((30 : ℕ) : FloatV) := by
    rw [hchars]
    decide
  have hscale : (FontAtlas.ctor FloatV.nan (some metrics_A_AB) atlas_unit_square).default_scale
      = FloatV.fin false (8589935 * 2 ^ 117) := by
    rw [ctor_default_scale_FloatV]
    decide
  have hclaimed : ((2 : ℕ) : FloatV) / ((30 : ℕ) : FloatV) / ((50 : ℕ) : FloatV)
      = FloatV.fin false (11453247 * 2 ^ 116) := by
    decide
  refine ⟨by rw [hchars]; rfl, hmean, hscale, by rw [hmean, hclaimed], ?_⟩
  rw [hscale, hmean, hclaimed]
  decide

/-- C4 at the spec's scenario: the single entry `A` with width 10 gives `default_scale`
= (2 / 10) / 50 in float arithmetic, the float 8589935 * 2^-31 nearest to 0.004, and 10 is
the mean width of the table. -/
theorem C4_default_scale_witness :
    (FontAtlas.ctor FloatV.nan (some metrics_A) atlas_unit_square).default_scale
        = FloatV.fin false (8589935 * 2 ^ 118)
    ∧ mean_width_px (FontAtlas.ctor FloatV.nan (some metrics_A)
        atlas_unit_square).characters = FloatV.fin false (10 * 2 ^ 149) := by
  have h := C4_default_scale FloatV.nan metrics_A atlas_unit_square
  have hnodup : (metrics_A.map (fun item => charKey0 item.1)).Nodup := by
    simp [metrics_A]
  refine ⟨?_, ?_⟩
  · rw [h.1, mean_width_metrics_A]
    decide
  · rw [h.2 hnodup, mean_width_metrics_A]

/-- C5 as stated fails: with the metrics source unopened the constructor returns an object
whose `default_scale` is whatever the member held before (here +inf), and with zero
character entries it returns an object whose `default_scale` is `NaN`; both have an empty
glyph table. -/
theorem C5_counterexample :
    FontAtlas.ctor (FloatV.inf false) none atlas_unit_square
        = { num_chars_per_screen_width := 50, default_scale := FloatV.inf false,
            characters := [] }
    ∧ (FloatV.inf false).isFinite = false
    ∧ (FontAtlas.ctor (FloatV.fin false 0) (some []) atlas_unit_square).default_scale
        = FloatV.nan
    ∧ (FontAtlas.ctor (FloatV.fin false 0) (some []) atlas_unit_square).characters = []
    ∧ FloatV.nan.isFinite = false :=
  ⟨rfl, rfl, default_scale_of_no_items _ _, ctor_characters _ [] _, rfl⟩

/-- C6 as stated fails: the single entry `A` of width 0 yields a non-empty glyph table whose
records have `width_px >= 0`, and `default_scale` = 2 / 0 / 50 = +inf, which is not
finite. -/
theorem C6_counterexample :
    (FontAtlas.ctor FloatV.nan (some metrics_zero_width) atlas_unit_square).characters ≠ []
    ∧ (∀ entry ∈ (FontAtlas.ctor FloatV.nan (some metrics_zero_width)
        atlas_unit_square).characters, entry.2.width_px.isNonneg = true)
    ∧ (FontAtlas.ctor FloatV.nan (some metrics_zero_width) atlas_unit_square).default_scale
        = FloatV.inf false
    ∧ (FloatV.inf false).isFinite = false := by
  have hchars := characters_single FloatV.nan atlas_unit_square item_zero_width
  refine ⟨?_, ?_, ?_, rfl⟩
  · rw [metrics_zero_width, hchars]; simp
  · rw [metrics_zero_width, hchars]
    intro entry hentry
    simp only [List.mem_singleton] at hentry
    subst hentry
    decide
  · rw [ctor_default_scale_FloatV]
    decide

/-- C6 (as amended) at the spec's scenario: the mean width is the float 10, and
`default_scale` is finite and strictly positive. -/
theorem C6_default_scale_positive_witness :
    (∃ kd, (FontAtlas.ctor FloatV.nan (some metrics_A) atlas_unit_square).default_scale
        = FloatV.fin false kd ∧ 2 ^ 16 ≤ kd ∧ kd ≤ 2 ^ 271)
    ∧ (FontAtlas.ctor FloatV.nan (some metrics_A) atlas_unit_square).default_scale.isFinite
        = true
    ∧ (FontAtlas.ctor FloatV.nan (some metrics_A) atlas_unit_square).default_scale.isPositive
        = true :=
  C6_default_scale_positive FloatV.nan metrics_A atlas_unit_square (10 * 2 ^ 149)
    mean_width_metrics_A (by norm_num)

/-- C9 as stated fails: with a texture atlas whose query returns an empty sequence, the
record stored for `A` has 0 UV entries. -/
theorem C9_counterexample :
    ∃ g, UnorderedMap.find (FontAtlas.ctor FloatV.nan (some metrics_A)
        atlas_without_sprites).characters 'A' = some g
      ∧ g.uv_coordinates.length = 0 ∧ g.uv_coordinates.length ≠ 4 := by
  have hchars := characters_single FloatV.nan atlas_without_sprites item_A
  refine ⟨glyph_record atlas_without_sprites item_A, ?_, rfl, ?_⟩
  · rw [metrics_A, hchars]
    simp [UnorderedMap.find, charKey0, item_A]
  · simp [glyph_record, atlas_without_sprites]

/-- C9 (as amended) at the spec's scenario with a texture atlas whose query returns four
corners: the record stored for `A` holds those four. -/
theorem C9_uv_from_atlas_witness :
    ∃ g, UnorderedMap.find (FontAtlas.ctor FloatV.nan (some metrics_A)
        atlas_unit_square).characters 'A' = some g
      ∧ g.uv_coordinates = atlas_unit_square (String.singleton 'A')
      ∧ g.uv_coordinates.length = 4 := by
  have hchars := characters_single FloatV.nan atlas_unit_square item_A
  have hfind : UnorderedMap.find (FontAtlas.ctor FloatV.nan (some metrics_A)
      atlas_unit_square).characters 'A' = some (glyph_record atlas_unit_square item_A) := by
    rw [metrics_A, hchars]
    simp [UnorderedMap.find, charKey0, item_A]
  have h := C9_uv_from_atlas FloatV.nan (some metrics_A) atlas_unit_square
    'A' _ hfind
  exact ⟨_, hfind, h.1, h.2.mpr rfl⟩

end CtorInstances
